import Mathlib

/-!
Verification of `example/vercel_agent.py` (deepclause/agentvm).

The file embeds, as executable Lean definitions, the pieces of the Python
script the specification talks about:

* the JSON wire encoding (`json.dumps` on the request dictionaries, with
  Python's default `ensure_ascii=True` string escaping) and decoding
  (`json.loads`, modelled by a fuel-based recursive-descent parser);
* `AgentVMClient.exec`'s handling of a response line, and the
  `start`/`exec`/`stop` state machine of the client;
* the bounded tool-calling loop of `run_agent`, including the tool-result
  formatting and the degraded (no-credential) mode;
* the top-level `try/except/finally` structure of `run_agent`.

Modelling notes.  JSON numbers are modelled as integers (the protocol only
uses integer `exitCode`s; float literals are rejected by the model parser).
Python `dict`s from `json.loads` are modelled as association lists with
last-occurrence-wins lookup, matching duplicate-key behaviour of the C
decoder.  Python raises `RuntimeError` with distinguishing messages for the
client errors; the specification names them `NotStartedError`,
`ConnectionClosedError` and `RemoteExecutionError`, and the model uses those
names as constructors, keeping the exact message text where the claim is
about the message.
-/

namespace AgentVM

/-- JSON values as produced by `json.loads` (numbers restricted to
integers; the bridge protocol uses only integer numbers). -/
inductive Json : Type where
  | null : Json
  | bool (b : Bool) : Json
  | int (n : Int) : Json
  | str (s : String) : Json
  | arr (elems : List Json) : Json
  | obj (members : List (String × Json)) : Json

/-- Dictionary lookup on a decoded JSON object.  `json.loads` builds a
Python `dict` by successive assignment, so a duplicated key keeps its last
value; the fold below reproduces that. -/
def jget (members : List (String × Json)) (key : String) : Option Json :=
  members.foldl (fun acc kv => if kv.1 = key then some kv.2 else acc) none

/-- The sixteen lowercase hexadecimal digit characters, as emitted by
Python's `\uXXXX` escapes. -/
def hexDigitChar (d : Nat) : Char :=
  match d with
  | 0 => '0' | 1 => '1' | 2 => '2' | 3 => '3'
  | 4 => '4' | 5 => '5' | 6 => '6' | 7 => '7'
  | 8 => '8' | 9 => '9' | 10 => 'a' | 11 => 'b'
  | 12 => 'c' | 13 => 'd' | 14 => 'e' | 15 => 'f'
  | _ => '0'

/-- Four lowercase hex digits of `n` (used for `\uXXXX`). -/
def hex4 (n : Nat) : List Char :=
  [hexDigitChar (n / 4096 % 16), hexDigitChar (n / 256 % 16),
   hexDigitChar (n / 16 % 16), hexDigitChar (n % 16)]

/-- Escape of one character in `json.dumps` with the default
`ensure_ascii=True` (CPython's `py_encode_basestring_ascii`): printable
ASCII other than `"` and `\` is literal, the two-character escapes cover
`\b \t \n \f \r \" \\`, every other character becomes `\uXXXX`
(a surrogate pair for code points above `0xFFFF`). -/
def escapeChar (c : Char) : List Char :=
  if c = '"' then ['\\', '"']
  else if c = '\\' then ['\\', '\\']
  else if c.toNat = 8 then ['\\', 'b']
  else if c.toNat = 9 then ['\\', 't']
  else if c.toNat = 10 then ['\\', 'n']
  else if c.toNat = 12 then ['\\', 'f']
  else if c.toNat = 13 then ['\\', 'r']
  else if 0x20 ≤ c.toNat ∧ c.toNat ≤ 0x7e then [c]
  else if c.toNat < 0x10000 then '\\' :: 'u' :: hex4 c.toNat
  else
    ('\\' :: 'u' :: hex4 (0xd800 + (c.toNat - 0x10000) / 0x400)) ++
    ('\\' :: 'u' :: hex4 (0xdc00 + (c.toNat - 0x10000) % 0x400))

/-- `ensure_ascii` escaping of a whole character list. -/
def escapeList (cs : List Char) : List Char :=
  match cs with
  | [] => []
  | c :: rest => escapeChar c ++ escapeList rest

/-- `json.dumps` of a string: the escaped body between double quotes. -/
def dumpStr (s : String) : String :=
  "\"" ++ String.mk (escapeList s.data) ++ "\""

mutual

/-- `json.dumps` of a JSON value, with CPython's default separators
`", "` and `": "`. -/
def dumps : Json → String
  | .null => "null"
  | .bool true => "true"
  | .bool false => "false"
  | .int n => toString n
  | .str s => dumpStr s
  | .arr elems => "[" ++ dumpsElems elems ++ "]"
  | .obj members => "\x7b" ++ dumpsMembers members ++ "\x7d"

/-- Comma-joined dumps of array elements. -/
def dumpsElems : List Json → String
  | [] => ""
  | [x] => dumps x
  | x :: y :: rest => dumps x ++ ", " ++ dumpsElems (y :: rest)

/-- Comma-joined dumps of object members. -/
def dumpsMembers : List (String × Json) → String
  | [] => ""
  | [kv] => dumpStr kv.1 ++ ": " ++ dumps kv.2
  | kv :: m :: rest => dumpStr kv.1 ++ ": " ++ dumps kv.2 ++ ", " ++ dumpsMembers (m :: rest)

end

/-- JSON insignificant whitespace (`json.loads` skips space, tab,
newline, carriage return). -/
def isJsonWs (c : Char) : Bool :=
  c = ' ' || c = '\t' || c = '\n' || c = '\r'

/-- Drop leading JSON whitespace. -/
def skipWs (cs : List Char) : List Char :=
  match cs with
  | [] => []
  | c :: rest => if isJsonWs c then skipWs rest else c :: rest

/-- Value of a hexadecimal digit character, if it is one. -/
def hexVal (c : Char) : Option Nat :=
  if '0' ≤ c ∧ c ≤ '9' then some (c.toNat - 48)
  else if 'a' ≤ c ∧ c ≤ 'f' then some (c.toNat - 87)
  else if 'A' ≤ c ∧ c ≤ 'F' then some (c.toNat - 55)
  else none

/-- Decimal digit test. -/
def isDigitChar (c : Char) : Bool :=
  '0' ≤ c && c ≤ '9'

/-- Longest leading run of decimal digits, and the rest. -/
def takeDigits (cs : List Char) : List Char × List Char :=
  match cs with
  | [] => ([], [])
  | c :: rest =>
      if isDigitChar c then
        let (ds, rest') := takeDigits rest
        (c :: ds, rest')
      else ([], cs)

/-- Numeric value of a digit run. -/
def digitsVal (ds : List Char) : Nat :=
  ds.foldl (fun acc c => acc * 10 + (c.toNat - 48)) 0

/-- Parse a JSON integer literal (optional minus, no leading zeros, and —
a restriction of this model — no fraction or exponent part). -/
def parseInt (cs : List Char) : Option (Int × List Char) :=
  let (neg, body) :=
    match cs with
    | '-' :: rest => (true, rest)
    | _ => (false, cs)
  let (ds, rest) := takeDigits body
  match ds with
  | [] => none
  | d :: ds' =>
      if d = '0' ∧ ds' ≠ [] then none
      else
        let n : Int := Int.ofNat (digitsVal ds)
        some ((if neg then -n else n), rest)

/-- Combined numeric value of four hex digit characters. -/
def hex4Val (c1 c2 c3 c4 : Char) : Option Nat :=
  (hexVal c1).bind fun v1 =>
  (hexVal c2).bind fun v2 =>
  (hexVal c3).bind fun v3 =>
  (hexVal c4).bind fun v4 =>
  some (v1 * 4096 + v2 * 256 + v3 * 16 + v4)

/-- After a high surrogate `n`, consume the `\uXXXX` low surrogate and
combine the pair into the astral code point. -/
def combineSurrogate (n : Nat) (rest : List Char) : Option (Char × List Char) :=
  match rest with
  | e1 :: e2 :: d1 :: d2 :: d3 :: d4 :: rest2 =>
    if e1 = '\\' ∧ e2 = 'u' then
      (hex4Val d1 d2 d3 d4).bind fun m =>
        if 0xdc00 ≤ m ∧ m ≤ 0xdfff then
          some (Char.ofNat (0x10000 + (n - 0xd800) * 0x400 + (m - 0xdc00)), rest2)
        else none
    else none
  | _ => none

/-- Decode what follows `\u`: four hex digits, combined with a following
`\uXXXX` low surrogate when they name a high surrogate.  A lone
surrogate is rejected (a restriction of this model: Lean's `Char` cannot
hold one, and the escaping never produces one).  Returns the decoded
character and the remaining input. -/
def parseUnicodeEscape (cs : List Char) : Option (Char × List Char) :=
  match cs with
  | c1 :: c2 :: c3 :: c4 :: rest =>
    (hex4Val c1 c2 c3 c4).bind fun n =>
      if n < 0xd800 ∨ 0xdfff < n then some (Char.ofNat n, rest)
      else if n ≤ 0xdbff then combineSurrogate n rest
      else none
  | _ => none

/-- Body of a JSON string after the opening quote, in CPython's strict
mode (raw control characters below `0x20` are rejected).  `fuel` bounds
the number of decoded characters.  Returns the decoded characters and
the input after the closing quote. -/
def parseStringBody (fuel : Nat) (cs : List Char) :
    Option (List Char × List Char) :=
  match fuel with
  | 0 => none
  | fuel + 1 =>
    match cs with
    | [] => none
    | c :: rest =>
      if c = '"' then some ([], rest)
      else if c = '\\' then
        match rest with
        | [] => none
        | e :: rest2 =>
          if e = '"' then
            (parseStringBody fuel rest2).map (fun p => ('"' :: p.1, p.2))
          else if e = '\\' then
            (parseStringBody fuel rest2).map (fun p => ('\\' :: p.1, p.2))
          else if e = '/' then
            (parseStringBody fuel rest2).map (fun p => ('/' :: p.1, p.2))
          else if e = 'b' then
            (parseStringBody fuel rest2).map (fun p => (Char.ofNat 8 :: p.1, p.2))
          else if e = 'f' then
            (parseStringBody fuel rest2).map (fun p => (Char.ofNat 12 :: p.1, p.2))
          else if e = 'n' then
            (parseStringBody fuel rest2).map (fun p => ('\n' :: p.1, p.2))
          else if e = 'r' then
            (parseStringBody fuel rest2).map (fun p => (Char.ofNat 13 :: p.1, p.2))
          else if e = 't' then
            (parseStringBody fuel rest2).map (fun p => ('\t' :: p.1, p.2))
          else if e = 'u' then
            match parseUnicodeEscape rest2 with
            | some (ch, rest3) =>
              (parseStringBody fuel rest3).map (fun p => (ch :: p.1, p.2))
            | none => none
          else none
      else if c.toNat < 0x20 then none
      else (parseStringBody fuel rest).map (fun p => (c :: p.1, p.2))

mutual

/-- Parse one JSON value (after skipping leading whitespace),
dispatching on the first character exactly as CPython's scanner does.
`fuel` decreases on every recursive call. -/
def parseValue (fuel : Nat) (cs : List Char) : Option (Json × List Char) :=
  match fuel with
  | 0 => none
  | fuel + 1 =>
    match skipWs cs with
    | [] => none
    | c :: rest =>
      if c = '"' then
        match parseStringBody (rest.length + 1) rest with
        | some (body, rest') => some (.str (String.mk body), rest')
        | none => none
      else if c = '{' then
        match skipWs rest with
        | [] => none
        | c' :: rest' =>
          if c' = '}' then some (.obj [], rest')
          else parseMembers fuel rest []
      else if c = '[' then
        match skipWs rest with
        | [] => none
        | c' :: rest' =>
          if c' = ']' then some (.arr [], rest')
          else parseElems fuel rest []
      else if c = 't' then
        match rest with
        | 'r' :: 'u' :: 'e' :: rest' => some (.bool true, rest')
        | _ => none
      else if c = 'f' then
        match rest with
        | 'a' :: 'l' :: 's' :: 'e' :: rest' => some (.bool false, rest')
        | _ => none
      else if c = 'n' then
        match rest with
        | 'u' :: 'l' :: 'l' :: rest' => some (.null, rest')
        | _ => none
      else
        match parseInt (c :: rest) with
        | some (n, rest') => some (.int n, rest')
        | none => none

/-- Parse the elements of a non-empty JSON array, accumulating in
reverse. -/
def parseElems (fuel : Nat) (cs : List Char) (acc : List Json) :
    Option (Json × List Char) :=
  match fuel with
  | 0 => none
  | fuel + 1 =>
    match parseValue fuel cs with
    | none => none
    | some (v, rest) =>
      match skipWs rest with
      | [] => none
      | c :: rest' =>
        if c = ',' then parseElems fuel rest' (v :: acc)
        else if c = ']' then some (.arr (v :: acc).reverse, rest')
        else none

/-- Parse the members of a non-empty JSON object, accumulating in
reverse. -/
def parseMembers (fuel : Nat) (cs : List Char) (acc : List (String × Json)) :
    Option (Json × List Char) :=
  match fuel with
  | 0 => none
  | fuel + 1 =>
    match skipWs cs with
    | [] => none
    | c :: rest =>
      if c = '"' then
        match parseStringBody (rest.length + 1) rest with
        | none => none
        | some (key, rest') =>
          match skipWs rest' with
          | [] => none
          | c' :: rest2 =>
            if c' = ':' then
              match parseValue fuel rest2 with
              | none => none
              | some (v, rest3) =>
                match skipWs rest3 with
                | [] => none
                | c'' :: rest4 =>
                  if c'' = ',' then
                    parseMembers fuel rest4 ((String.mk key, v) :: acc)
                  else if c'' = '}' then
                    some (.obj ((String.mk key, v) :: acc).reverse, rest4)
                  else none
            else none
      else none

end

/-- `json.loads`: parse one value and require only whitespace after it. -/
def loads (s : String) : Option Json :=
  match parseValue (s.data.length + 1) s.data with
  | some (v, rest) => if skipWs rest = [] then some v else none
  | none => none

/-- The characters `dumps` places between the braces of a non-empty
object whose values are all strings: used to state the round-trip
lemmas about the request lines the client writes. -/
def membersChars : List (String × String) → List Char
  | [] => []
  | [kv] =>
    '"' :: (escapeList kv.1.data ++
      '"' :: ':' :: ' ' :: '"' :: (escapeList kv.2.data ++ ['"']))
  | kv :: m :: ms =>
    '"' :: (escapeList kv.1.data ++
      '"' :: ':' :: ' ' :: '"' :: (escapeList kv.2.data ++
        '"' :: ',' :: ' ' :: membersChars (m :: ms)))

/-! ## The bridge client (`AgentVMClient`) -/

/-- The errors `exec` can raise.  The first three are `RuntimeError`s with
the messages `"VM not started"`, `"VM closed connection"` and
`"VM Error: ..."`; the specification names them `NotStartedError`,
`ConnectionClosedError` and `RemoteExecutionError`.  `jsonDecodeError` is
the `json.JSONDecodeError` escaping from `json.loads` on a malformed line,
`attributeError` the `AttributeError` from calling `.get` on a decoded
non-dict, and `keyError` the `KeyError` from `resp['result']`. -/
inductive ExecError : Type where
  | notStarted : ExecError
  | connectionClosed : ExecError
  | jsonDecodeError : ExecError
  | attributeError : ExecError
  | keyError (key : String) : ExecError
  | remoteError (msg : String) : ExecError
deriving DecidableEq, Repr

mutual

/-- Python `str()` of a decoded JSON value, as interpolated by the
f-string `f"VM Error: ..."`.  Scalars are exact; for lists and dicts the
single-quote `repr` of nested strings is reproduced without `repr`'s own
escaping (the protocol's `error` fields are plain strings, so no claim
depends on that corner). -/
def pyStr : Json → String
  | .null => "None"
  | .bool true => "True"
  | .bool false => "False"
  | .int n => toString n
  | .str s => s
  | .arr elems => "[" ++ pyStrElems elems ++ "]"
  | .obj members => "\x7b" ++ pyStrMembers members ++ "\x7d"

/-- `repr` of a list element (strings get single quotes). -/
def pyRepr : Json → String
  | .str s => "'" ++ s ++ "'"
  | .null => "None"
  | .bool true => "True"
  | .bool false => "False"
  | .int n => toString n
  | .arr elems => "[" ++ pyStrElems elems ++ "]"
  | .obj members => "\x7b" ++ pyStrMembers members ++ "\x7d"

/-- Comma-joined `repr`s of list elements. -/
def pyStrElems : List Json → String
  | [] => ""
  | [x] => pyRepr x
  | x :: y :: rest => pyRepr x ++ ", " ++ pyStrElems (y :: rest)

/-- Comma-joined `repr`s of dict items. -/
def pyStrMembers : List (String × Json) → String
  | [] => ""
  | [kv] => "'" ++ kv.1 ++ "': " ++ pyRepr kv.2
  | kv :: m :: rest => "'" ++ kv.1 ++ "': " ++ pyRepr kv.2 ++ ", " ++ pyStrMembers (m :: rest)

end

/-- Python `str()` of `resp.get('error')` (which is `None` when the key
is absent). -/
def pyStrOpt : Option Json → String
  | none => "None"
  | some v => pyStr v

/-- The request line `exec` writes for a command
(`json.dumps(\x7b"cmd": "exec", "command": command\x7d)` plus the
appended newline, lines 45–47 of `vercel_agent.py`). -/
def execRequestLine (command : String) : String :=
  dumps (Json.obj [("cmd", Json.str "exec"), ("command", Json.str command)]) ++ "\n"

/-- `exec`'s handling of the response line it reads (lines 49–57): an
empty read (EOF) is the connection-closed error; otherwise the line is
passed to `json.loads`; a decoded dict with `status == "ok"` yields
`resp['result']` unchanged, anything else the `RuntimeError` whose
message is `"VM Error: "` followed by `str(resp.get('error'))`. -/
def execResponse (respLine : String) : Except ExecError Json :=
  if respLine = "" then .error .connectionClosed
  else
    match loads respLine with
    | none => .error .jsonDecodeError
    | some (Json.obj members) =>
      (match jget members "status" with
       | some (Json.str s) =>
         if s = "ok" then
           match jget members "result" with
           | some r => .ok r
           | none => .error (.keyError "result")
         else .error (.remoteError ("VM Error: " ++ pyStrOpt (jget members "error")))
       | _ => .error (.remoteError ("VM Error: " ++ pyStrOpt (jget members "error"))))
    | some _ => .error .attributeError

/-- The client's only piece of state: whether `self.process` is set.
`__init__` leaves it `None`, `start` assigns the `Popen` handle (before
waiting for `READY`), `stop` resets it to `None`. -/
structure AgentVMClient : Type where
  processSet : Bool
deriving DecidableEq, Repr

/-- `AgentVMClient()`: `self.process = None`. -/
def clientInit : AgentVMClient := ⟨false⟩

/-- `exec` (lines 41–57): the `if not self.process` guard raises the
not-started `RuntimeError` before anything is written; otherwise the
request is sent and the reply handled by `execResponse`.  The scripted
child's reply line is the second argument. -/
def clientExec (c : AgentVMClient) (respLine : String) : Except ExecError Json :=
  if c.processSet then execResponse respLine else .error .notStarted

/-- Observable actions of one `stop` call. -/
inductive StopAction : Type where
  | sendStopRequest : StopAction
  | waitChild : StopAction
  | killChild : StopAction
deriving DecidableEq, Repr

/-- `stop` (lines 59–67): a no-op when `self.process` is `None`;
otherwise it writes the `\x7b"cmd": "stop"\x7d` line and waits up to two
seconds, killing the child if anything in the `try` block fails
(`graceful` abstracts whether it completed), and unconditionally clears
`self.process`.  Returns the new client state and the actions taken. -/
def clientStop (c : AgentVMClient) (graceful : Bool) :
    AgentVMClient × List StopAction :=
  if c.processSet then
    (⟨false⟩,
     if graceful then [.sendStopRequest, .waitChild]
     else [.sendStopRequest, .killChild])
  else (c, [])

/-! ## The agent loop (`run_agent`) -/

/-- The typed view of a successful `exec` result
(`\x7b"stdout": ..., "stderr": ..., "exitCode": ...\x7d`). -/
structure ExecResult : Type where
  stdout : String
  stderr : String
  exitCode : Int
deriving DecidableEq, Repr

/-- Tool-result content built from a command result (lines 133–137):
`f"Error (Exit ...): ..."` with `stderr or stdout` — Python's `or`
takes `stderr` when it is non-empty — on a non-zero exit code, and the
raw `stdout` otherwise. -/
def toolContent (res : ExecResult) : String :=
  if res.exitCode ≠ 0 then
    "Error (Exit " ++ toString res.exitCode ++ "): " ++
      (if res.stderr = "" then res.stdout else res.stderr)
  else res.stdout

/-- One tool invocation in a model response (`tool_call.id`,
`tool_call.function.name`, `tool_call.function.arguments`). -/
structure ToolCall : Type where
  id : String
  name : String
  arguments : String
deriving DecidableEq, Repr

/-- One assistant message from the completion endpoint. -/
structure AssistantMsg : Type where
  content : String
  tool_calls : List ToolCall
deriving DecidableEq, Repr

/-- Conversation messages (the `messages` list). -/
inductive Message : Type where
  | user (content : String) : Message
  | assistant (m : AssistantMsg) : Message
  | tool (tool_call_id : String) (name : String) (content : String) : Message
deriving DecidableEq, Repr

/-- Errors aborting the tool loop: `json.loads` failing on the
tool call's `arguments`, `arguments` decoding to a non-dict,
`args["command"]` missing, the command value not being a string (a
modelling restriction — Python would pass any value through to `exec`;
no scripted scenario in this file uses one), and errors raised by
`vm.exec`. -/
inductive AgentError : Type where
  | argsDecode : AgentError
  | argsNotDict : AgentError
  | argsKey : AgentError
  | argsType : AgentError
  | bridgeError (e : ExecError) : AgentError
deriving DecidableEq, Repr

/-- The `for tool_call in message.tool_calls` body (lines 124–143).  A
call named `execute_shell_command` has its arguments decoded, the
command sent to the bridge (`bridge` scripts the child process composed
with `exec`), and the formatted tool message appended; any other name is
skipped entirely.  Returns the messages, the commands sent so far, and
the first error, which aborts the remainder of the loop (appends made
before it are kept, as in Python). -/
def processToolCalls (bridge : String → Except ExecError ExecResult) :
    List ToolCall → List Message → List String →
    List Message × List String × Option AgentError
  | [], msgs, cmds => (msgs, cmds, none)
  | tc :: rest, msgs, cmds =>
    if tc.name = "execute_shell_command" then
      match loads tc.arguments with
      | none => (msgs, cmds, some .argsDecode)
      | some (Json.obj members) =>
        (match jget members "command" with
         | some (Json.str command) =>
           (match bridge command with
            | .error e => (msgs, cmds ++ [command], some (.bridgeError e))
            | .ok res =>
              processToolCalls bridge rest
                (msgs ++ [Message.tool tc.id "execute_shell_command" (toolContent res)])
                (cmds ++ [command]))
         | some _ => (msgs, cmds, some .argsType)
         | none => (msgs, cmds, some .argsKey))
      | some _ => (msgs, cmds, some .argsNotDict)
    else processToolCalls bridge rest msgs cmds

/-- Result of the `while` loop: the conversation, the number of
completion-endpoint round-trips, the commands sent to the bridge, the
final answer (the content printed when a response has no tool calls) and
the error that aborted the loop, if any. -/
structure LoopState : Type where
  messages : List Message
  endpointCalls : Nat
  execCommands : List String
  finalContent : Option String
  err : Option AgentError
deriving DecidableEq, Repr

/-- The step budget (line 104). -/
def MAX_STEPS : Nat := 5

/-- The `while step < MAX_STEPS` loop (lines 107–143), structurally
recursive on the remaining budget.  `replies i` scripts the endpoint's
response to its `(i+1)`-th call.  Each iteration appends the assistant
message; a response without tool calls prints its content and breaks,
otherwise the tool calls are processed and the loop continues. -/
def runSteps (replies : Nat → AssistantMsg)
    (bridge : String → Except ExecError ExecResult) :
    Nat → Nat → List Message → List String → LoopState
  | 0, calls, msgs, cmds => ⟨msgs, calls, cmds, none, none⟩
  | budget + 1, calls, msgs, cmds =>
    let m := replies calls
    let msgs' := msgs ++ [Message.assistant m]
    if m.tool_calls = [] then ⟨msgs', calls + 1, cmds, some m.content, none⟩
    else
      match processToolCalls bridge m.tool_calls msgs' cmds with
      | (msgs2, cmds2, some e) => ⟨msgs2, calls + 1, cmds2, none, some e⟩
      | (msgs2, cmds2, none) => runSteps replies bridge budget (calls + 1) msgs2 cmds2

/-- The fixed initial user instruction (line 99). -/
def initialUserMsg : String :=
  "Calculate the 10th Fibonacci number using Python and tell me the result."

/-- The credentialed branch of `run_agent`: the loop started on the
seeded conversation with the full budget. -/
def runAgentLoop (replies : Nat → AssistantMsg)
    (bridge : String → Except ExecError ExecResult) : LoopState :=
  runSteps replies bridge MAX_STEPS 0 [Message.user initialUserMsg] []

/-- How `vm.start()` turns out: `Popen` itself failing (`self.process`
never set), the child exiting before the `READY` sentinel
(`self.process` already set), or a clean start. -/
inductive StartOutcome : Type where
  | popenFail : StartOutcome
  | readyFail : StartOutcome
  | ok : StartOutcome
deriving DecidableEq, Repr

/-- The error a run can end up logging. -/
inductive RunError : Type where
  | startupError : RunError
  | agent (e : AgentError) : RunError
deriving DecidableEq, Repr

/-- Observable outcome of one `run_agent()` call. -/
structure RunResult : Type where
  endpointCalls : Nat
  execCommands : List String
  finalContent : Option String
  caughtError : Option RunError
  stopActions : List StopAction
  stopRuns : Nat
deriving DecidableEq, Repr

/-- `run_agent` (lines 96–154): `try` around `vm.start()` and either the
credentialed loop or, with no `OPENAI_API_KEY`, the single simulated
exchange `vm.exec('ls -F')`; `except Exception` logs the error;
`finally` runs `vm.stop()`.  `start` scripts the startup outcome,
`graceful` the shutdown branch inside `stop`. -/
def run_agent (apiKey : Option String) (start : StartOutcome)
    (replies : Nat → AssistantMsg)
    (bridge : String → Except ExecError ExecResult)
    (graceful : Bool) : RunResult :=
  match start with
  | .popenFail =>
    let stopped := clientStop ⟨false⟩ graceful
    ⟨0, [], none, some .startupError, stopped.2, 1⟩
  | .readyFail =>
    let stopped := clientStop ⟨true⟩ graceful
    ⟨0, [], none, some .startupError, stopped.2, 1⟩
  | .ok =>
    let stopped := clientStop ⟨true⟩ graceful
    match apiKey with
    | some _ =>
      let s := runAgentLoop replies bridge
      ⟨s.endpointCalls, s.execCommands, s.finalContent,
       s.err.map RunError.agent, stopped.2, 1⟩
    | none =>
      match bridge "ls -F" with
      | .ok _ => ⟨0, ["ls -F"], none, none, stopped.2, 1⟩
      | .error e =>
        ⟨0, ["ls -F"], none, some (.agent (.bridgeError e)), stopped.2, 1⟩

/-- A scripted completion endpoint: one `execute_shell_command`
invocation on each of the first two calls, a plain text answer on the
third (and on any later call). -/
def scriptedReplies (cmd1 cmd2 answer id1 id2 : String) :
    Nat → AssistantMsg := fun i =>
  if i = 0 then
    ⟨"", [⟨id1, "execute_shell_command",
      dumps (Json.obj [("command", Json.str cmd1)])⟩]⟩
  else if i = 1 then
    ⟨"", [⟨id2, "execute_shell_command",
      dumps (Json.obj [("command", Json.str cmd2)])⟩]⟩
  else ⟨answer, []⟩

/-! ## Round-trip of the string escaping -/

/-- `hexVal` inverts `hexDigitChar` on nibbles. -/
theorem hexVal_hexDigitChar (d : Nat) (h : d < 16) :
    hexVal (hexDigitChar d) = some d := by
  interval_cases d <;> decide

/-- `Char.toNat` is injective. -/
theorem char_toNat_inj {a b : Char} (h : a.toNat = b.toNat) : a = b := by
  rw [← Char.ofNat_toNat a, h, Char.ofNat_toNat]

/-- The code point of a `Char` is a unicode scalar value. -/
theorem char_toNat_valid (c : Char) :
    c.toNat < 0xd800 ∨ (0xdfff < c.toNat ∧ c.toNat < 0x110000) :=
  c.valid

/-- `hex4Val` inverts `hex4` below `0x10000`. -/
theorem hex4Val_hex4 (n : Nat) (hlt : n < 0x10000) :
    hex4Val (hexDigitChar (n / 4096 % 16)) (hexDigitChar (n / 256 % 16))
      (hexDigitChar (n / 16 % 16)) (hexDigitChar (n % 16)) = some n := by
  rw [hex4Val]
  rw [hexVal_hexDigitChar _ (by omega), hexVal_hexDigitChar _ (by omega),
      hexVal_hexDigitChar _ (by omega), hexVal_hexDigitChar _ (by omega)]
  rw [Option.some_bind, Option.some_bind, Option.some_bind, Option.some_bind]
  have hn : n / 4096 % 16 * 4096 + n / 256 % 16 * 256 +
      n / 16 % 16 * 16 + n % 16 = n := by omega
  rw [hn]

/-- `parseUnicodeEscape` decodes the four hex digits of a code point
outside the surrogate range. -/
theorem parseUnicodeEscape_hex4 (n : Nat) (hlt : n < 0x10000)
    (hval : n < 0xd800 ∨ 0xdfff < n) (rest : List Char) :
    parseUnicodeEscape (hex4 n ++ rest) = some (Char.ofNat n, rest) := by
  rw [hex4]
  simp only [List.cons_append, List.nil_append]
  rw [parseUnicodeEscape, hex4Val_hex4 n hlt]
  rw [Option.some_bind]
  rw [if_pos hval]

/-- `parseUnicodeEscape` combines the surrogate pair escaping an astral
code point back into it. -/
theorem parseUnicodeEscape_surrogatePair (n : Nat) (hlo : 0x10000 ≤ n)
    (hhi : n < 0x110000) (rest : List Char) :
    parseUnicodeEscape
      (hex4 (0xd800 + (n - 0x10000) / 0x400) ++ '\\' :: 'u' ::
        hex4 (0xdc00 + (n - 0x10000) % 0x400) ++ rest) =
      some (Char.ofNat n, rest) := by
  have hdiv : (n - 0x10000) / 0x400 < 0x400 := by omega
  rw [hex4, hex4]
  simp only [List.cons_append, List.nil_append]
  rw [parseUnicodeEscape,
      hex4Val_hex4 (0xd800 + (n - 0x10000) / 0x400) (by omega)]
  rw [Option.some_bind]
  rw [if_neg (by omega), if_pos (by omega)]
  rw [combineSurrogate, if_pos (by exact ⟨rfl, rfl⟩),
      hex4Val_hex4 (0xdc00 + (n - 0x10000) % 0x400) (by omega)]
  rw [Option.some_bind]
  rw [if_pos (by omega)]
  have hcomb : 0x10000 + (0xd800 + (n - 0x10000) / 0x400 - 0xd800) * 0x400 +
      (0xdc00 + (n - 0x10000) % 0x400 - 0xdc00) = n := by omega
  rw [hcomb]

/-- One escaped character decodes back to itself, whatever follows:
`parseStringBody` consumes `escapeChar c` and conses `c`. -/
theorem parseStringBody_escapeChar (c : Char) (fuel : Nat) (tail : List Char) :
    parseStringBody (fuel + 1) (escapeChar c ++ tail) =
      (parseStringBody fuel tail).map (fun p => (c :: p.1, p.2)) := by
  rw [escapeChar]
  by_cases h1 : c = '"'
  · subst h1; simp [parseStringBody]
  · rw [if_neg h1]
    by_cases h2 : c = '\\'
    · subst h2; simp [parseStringBody]
    · rw [if_neg h2]
      by_cases h3 : c.toNat = 8
      · rw [if_pos h3]
        have hc : Char.ofNat 8 = c := by rw [← h3, Char.ofNat_toNat]
        rw [← hc]
        simp [parseStringBody]
      · rw [if_neg h3]
        by_cases h4 : c.toNat = 9
        · rw [if_pos h4]
          have hc : '\t' = c :=
            char_toNat_inj ((by decide : ('\t').toNat = 9).trans h4.symm)
          rw [← hc]
          simp [parseStringBody]
        · rw [if_neg h4]
          by_cases h5 : c.toNat = 10
          · rw [if_pos h5]
            have hc : '\n' = c :=
              char_toNat_inj ((by decide : ('\n').toNat = 10).trans h5.symm)
            rw [← hc]
            simp [parseStringBody]
          · rw [if_neg h5]
            by_cases h6 : c.toNat = 12
            · rw [if_pos h6]
              have hc : Char.ofNat 12 = c := by rw [← h6, Char.ofNat_toNat]
              rw [← hc]
              simp [parseStringBody]
            · rw [if_neg h6]
              by_cases h7 : c.toNat = 13
              · rw [if_pos h7]
                have hc : Char.ofNat 13 = c := by rw [← h7, Char.ofNat_toNat]
                rw [← hc]
                simp [parseStringBody]
              · rw [if_neg h7]
                by_cases h8 : 0x20 ≤ c.toNat ∧ c.toNat ≤ 0x7e
                · rw [if_pos h8]
                  rw [List.cons_append, List.nil_append]
                  rw [parseStringBody.eq_def]
                  simp only []
                  rw [if_neg h1, if_neg h2, if_neg (by omega)]
                · rw [if_neg h8]
                  have hval := char_toNat_valid c
                  by_cases h9 : c.toNat < 0x10000
                  · rw [if_pos h9]
                    have hu := parseUnicodeEscape_hex4 c.toNat h9
                      (by omega) tail
                    simp [parseStringBody, hu, Char.ofNat_toNat]
                  · rw [if_neg h9]
                    have hu := parseUnicodeEscape_surrogatePair c.toNat
                      (by omega) (by omega) tail
                    simp only [List.cons_append, List.append_assoc,
                      List.nil_append] at hu
                    simp only [List.cons_append, List.append_assoc,
                      List.nil_append]
                    rw [parseStringBody.eq_def]
                    simp only []
                    simp [hu, Char.ofNat_toNat]

/-- Parsing the escape of a string recovers it: `parseStringBody` undoes
`escapeList`, leaving the input after the closing quote untouched. -/
theorem parseStringBody_escapeList (cs : List Char) :
    ∀ (fuel : Nat) (rest : List Char), cs.length < fuel →
      parseStringBody fuel (escapeList cs ++ '"' :: rest) = some (cs, rest) := by
  induction cs with
  | nil =>
    intro fuel rest h
    cases fuel with
    | zero => omega
    | succ fuel => simp [escapeList, parseStringBody]
  | cons c cs ih =>
    intro fuel rest h
    cases fuel with
    | zero => omega
    | succ fuel =>
    have hfuel : cs.length < fuel := by simp at h; omega
    rw [escapeList, List.append_assoc, parseStringBody_escapeChar,
        ih fuel rest hfuel]
    rfl

/-- Every escape is at least one character long. -/
theorem escapeChar_length_pos (c : Char) : 1 ≤ (escapeChar c).length := by
  rw [escapeChar]
  split_ifs <;> simp [hex4]

/-- Escaping never shortens a string. -/
theorem escapeList_length_ge (cs : List Char) :
    cs.length ≤ (escapeList cs).length := by
  induction cs with
  | nil => simp [escapeList]
  | cons c cs ih =>
    rw [escapeList]
    simp only [List.length_append, List.length_cons]
    have := escapeChar_length_pos c
    omega

/-- Hex digit characters are never a newline. -/
theorem hexDigitChar_ne_newline (d : Nat) : hexDigitChar d ≠ '\n' := by
  unfold hexDigitChar
  split <;> decide

/-- No escape contains a raw newline (a newline itself escapes to
`\n`, two characters). -/
theorem escapeChar_no_newline (c : Char) : '\n' ∉ escapeChar c := by
  rw [escapeChar]
  split_ifs with h1 h2 h3 h4 h5 h6 h7 h8 h9
  · decide
  · decide
  · decide
  · decide
  · decide
  · decide
  · decide
  · intro hmem
    have hc : '\n' = c := by simpa using hmem
    have : c.toNat = 10 := by rw [← hc]; decide
    omega
  · intro hmem
    simp only [hex4, List.mem_cons, List.not_mem_nil, or_false] at hmem
    rcases hmem with h | h | h | h | h | h
    all_goals
      first
      | exact absurd h (by decide)
      | exact absurd h.symm (hexDigitChar_ne_newline _)
  · intro hmem
    simp only [hex4, List.mem_append, List.mem_cons, List.not_mem_nil,
      or_false] at hmem
    rcases hmem with (h | h | h | h | h | h) | (h | h | h | h | h | h)
    all_goals
      first
      | exact absurd h (by decide)
      | exact absurd h.symm (hexDigitChar_ne_newline _)

/-- An escaped string contains no raw newline. -/
theorem escapeList_no_newline (cs : List Char) : '\n' ∉ escapeList cs := by
  induction cs with
  | nil => simp [escapeList]
  | cons c cs ih =>
    rw [escapeList]
    intro hmem
    rcases List.mem_append.mp hmem with h | h
    · exact escapeChar_no_newline c h
    · exact ih h

/-- `skipWs` drops a leading whitespace character. -/
theorem skipWs_cons_of_ws (c : Char) (h : isJsonWs c = true) (cs : List Char) :
    skipWs (c :: cs) = skipWs cs := by
  rw [skipWs, if_pos h]

/-- `skipWs` stops at a non-whitespace character. -/
theorem skipWs_cons_of_not (c : Char) (h : isJsonWs c = false) (cs : List Char) :
    skipWs (c :: cs) = c :: cs := by
  rw [skipWs, if_neg (by simp [h])]

/-- Building a string back from its characters. -/
theorem string_mk_data (s : String) : String.mk s.data = s := rfl

/-- `parseStringBody` called with the fuel the value parsers pass it (one
more than the remaining input length) succeeds on an escaped string. -/
theorem parseStringBody_escapeList_self (s : String) (rest : List Char) :
    parseStringBody ((escapeList s.data ++ '"' :: rest).length + 1)
      (escapeList s.data ++ '"' :: rest) = some (s.data, rest) := by
  apply parseStringBody_escapeList
  have := escapeList_length_ge s.data
  simp only [List.length_append, List.length_cons]
  omega

/-- `parseValue` on a space followed by an escaped string literal. -/
theorem parseValue_string_space (fuel : Nat) (s : String) (rest : List Char) :
    parseValue (fuel + 1) (' ' :: '"' :: (escapeList s.data ++ '"' :: rest)) =
      some (.str s, rest) := by
  rw [parseValue.eq_def]
  simp only []
  rw [skipWs_cons_of_ws ' ' (by decide), skipWs_cons_of_not '"' (by decide)]
  simp only []
  rw [if_pos (by decide), parseStringBody_escapeList_self]

/-- `parseMembers` ignores a leading space. -/
theorem parseMembers_space (fuel : Nat) (cs : List Char)
    (acc : List (String × Json)) :
    parseMembers fuel (' ' :: cs) acc = parseMembers fuel cs acc := by
  cases fuel with
  | zero => rfl
  | succ f =>
    rw [parseMembers.eq_def]
    conv_rhs => rw [parseMembers.eq_def]
    rw [skipWs_cons_of_ws ' ' (by decide)]

/-- `parseMembers` decodes the serialized members of a non-empty
string-valued object, leaving what follows the closing brace. -/
theorem parseMembers_strMembers (ms : List (String × String)) :
    ∀ (fuel : Nat) (acc : List (String × Json)) (rest : List Char),
      ms ≠ [] → 2 * ms.length ≤ fuel →
      parseMembers fuel (membersChars ms ++ '}' :: rest) acc =
        some (.obj (acc.reverse ++ ms.map fun kv => (kv.1, Json.str kv.2)),
          rest) := by
  induction ms with
  | nil => intro fuel acc rest hne; exact absurd rfl hne
  | cons kv ms ih =>
    intro fuel acc rest hne hfuel
    cases fuel with
    | zero => simp at hfuel
    | succ f =>
    cases ms with
    | nil =>
      rw [membersChars]
      simp only [List.cons_append, List.append_assoc, List.nil_append]
      rw [parseMembers.eq_def]
      simp only []
      rw [skipWs_cons_of_not '"' (by decide)]
      simp only []
      rw [if_pos (by decide), parseStringBody_escapeList_self]
      simp only []
      rw [string_mk_data]
      rw [skipWs_cons_of_not ':' (by decide)]
      simp only []
      rw [if_pos (by decide)]
      cases f with
      | zero => simp at hfuel
      | succ f2 =>
      rw [parseValue_string_space]
      simp only []
      rw [skipWs_cons_of_not '}' (by decide)]
      simp only []
      rw [if_neg (by decide), if_pos (by decide)]
      simp [List.reverse_cons]
    | cons m ms' =>
      rw [membersChars]
      simp only [List.cons_append, List.append_assoc, List.nil_append]
      rw [parseMembers.eq_def]
      simp only []
      rw [skipWs_cons_of_not '"' (by decide)]
      simp only []
      rw [if_pos (by decide), parseStringBody_escapeList_self]
      simp only []
      rw [string_mk_data]
      rw [skipWs_cons_of_not ':' (by decide)]
      simp only []
      rw [if_pos (by decide)]
      cases f with
      | zero => simp at hfuel; omega
      | succ f2 =>
      rw [parseValue_string_space]
      simp only []
      rw [skipWs_cons_of_not ',' (by decide)]
      simp only []
      rw [if_pos (by decide), parseMembers_space]
      rw [ih (f2 + 1) ((kv.1, Json.str kv.2) :: acc) rest (by simp)
        (by simp at hfuel ⊢; omega)]
      simp [List.reverse_cons]

/-- `parseValue` decodes a serialized non-empty string-valued object. -/
theorem parseValue_strObj (ms : List (String × String)) (fuel : Nat)
    (rest : List Char) (hne : ms ≠ []) (hfuel : 2 * ms.length ≤ fuel) :
    parseValue (fuel + 1) ('{' :: (membersChars ms ++ '}' :: rest)) =
      some (.obj (ms.map fun kv => (kv.1, Json.str kv.2)), rest) := by
  obtain ⟨kv, ms', rfl⟩ : ∃ kv ms', ms = kv :: ms' := by
    cases ms with
    | nil => exact absurd rfl hne
    | cons a b => exact ⟨a, b, rfl⟩
  obtain ⟨t, ht⟩ : ∃ t, membersChars (kv :: ms') = '"' :: t := by
    cases ms' <;> exact ⟨_, rfl⟩
  rw [parseValue.eq_def]
  simp only []
  rw [skipWs_cons_of_not '{' (by decide)]
  simp only []
  rw [if_neg (by decide), if_pos (by decide)]
  rw [ht]
  simp only [List.cons_append]
  rw [skipWs_cons_of_not '"' (by decide)]
  simp only []
  rw [if_neg (by decide)]
  rw [← List.cons_append, ← ht]
  rw [parseMembers_strMembers (kv :: ms') fuel [] rest hne hfuel]
  simp

/-- The characters `dumps` produces for the members of a string-valued
object. -/
theorem dumpsMembers_str_data (ms : List (String × String)) :
    (dumpsMembers (ms.map fun kv => (kv.1, Json.str kv.2))).data =
      membersChars ms := by
  induction ms with
  | nil => rfl
  | cons kv ms ih =>
    cases ms with
    | nil =>
      show (dumpsMembers [(kv.1, Json.str kv.2)]).data = membersChars [kv]
      rw [dumpsMembers, membersChars, dumps, dumpStr, dumpStr]
      simp [String.data_append]
    | cons m ms' =>
      show (dumpsMembers ((kv.1, Json.str kv.2) ::
        ((m :: ms').map fun kv => (kv.1, Json.str kv.2)))).data =
        membersChars (kv :: m :: ms')
      obtain ⟨p, ps, hp⟩ : ∃ p ps,
          ((m :: ms').map fun kv => (kv.1, Json.str kv.2)) = p :: ps :=
        ⟨_, _, rfl⟩
      rw [membersChars, hp, dumpsMembers, ← hp, dumps, dumpStr, dumpStr]
      simp [String.data_append, ih]
      exact ih

/-- The characters `dumps` produces for a non-empty string-valued
object. -/
theorem dumps_strObj_data (ms : List (String × String)) :
    (dumps (Json.obj (ms.map fun kv => (kv.1, Json.str kv.2)))).data =
      '{' :: (membersChars ms ++ ['}']) := by
  rw [dumps]
  simp [String.data_append, dumpsMembers_str_data]

/-- Serialized members are at least two characters per member. -/
theorem membersChars_length_ge (ms : List (String × String)) :
    2 * ms.length ≤ (membersChars ms).length := by
  induction ms with
  | nil => simp [membersChars]
  | cons kv ms ih =>
    cases ms with
    | nil =>
      simp [membersChars]
      omega
    | cons m ms' =>
      rw [membersChars]
      simp only [List.length_cons, List.length_append] at ih ⊢
      omega

/-- `json.loads` inverts `json.dumps` on non-empty string-valued
objects. -/
theorem loads_dumps_strObj (ms : List (String × String)) (hne : ms ≠ []) :
    loads (dumps (Json.obj (ms.map fun kv => (kv.1, Json.str kv.2)))) =
      some (Json.obj (ms.map fun kv => (kv.1, Json.str kv.2))) := by
  rw [loads, dumps_strObj_data ms]
  have hmc := membersChars_length_ge ms
  have hshape : ('{' :: (membersChars ms ++ ['}'])).length + 1 =
      ((membersChars ms).length + 2) + 1 := by simp
  rw [hshape]
  have hL : 1 ≤ ms.length := by
    cases ms with
    | nil => exact absurd rfl hne
    | cons a b => simp
  rw [parseValue_strObj ms ((membersChars ms).length + 2) [] hne (by omega)]
  simp [skipWs]

/-- The characters of the request line: the serialized two-member
object followed by the newline. -/
theorem execRequestLine_data (cmd : String) :
    (execRequestLine cmd).data =
      '{' :: (membersChars [("cmd", "exec"), ("command", cmd)] ++
        '}' :: ['\n']) := by
  have hms : ([("cmd", Json.str "exec"), ("command", Json.str cmd)] :
      List (String × Json)) =
      ([("cmd", "exec"), ("command", cmd)] : List (String × String)).map
        (fun kv => (kv.1, Json.str kv.2)) := rfl
  rw [execRequestLine, String.data_append, hms, dumps_strObj_data]
  simp

/-- Serialized members contain no raw newline. -/
theorem membersChars_no_newline (ms : List (String × String)) :
    '\n' ∉ membersChars ms := by
  induction ms with
  | nil => simp [membersChars]
  | cons kv ms ih =>
    cases ms with
    | nil =>
      rw [membersChars]
      simp [List.mem_cons, List.mem_append, escapeList_no_newline]
    | cons m ms' =>
      rw [membersChars]
      simp [List.mem_cons, List.mem_append, escapeList_no_newline, ih]

/-- The empty read is not JSON. -/
theorem loads_empty : loads "" = none := rfl

/-- The request line the client writes parses back to the request
object: the framing is lossless for every command string. -/
theorem loads_execRequestLine (cmd : String) :
    loads (execRequestLine cmd) =
      some (Json.obj [("cmd", Json.str "exec"), ("command", Json.str cmd)]) := by
  rw [loads, execRequestLine_data]
  have hmc := membersChars_length_ge [("cmd", "exec"), ("command", cmd)]
  have hshape : ('{' :: (membersChars [("cmd", "exec"), ("command", cmd)] ++
      '}' :: ['\n'])).length + 1 =
      ((membersChars [("cmd", "exec"), ("command", cmd)]).length + 3) + 1 := by
    simp
  rw [hshape]
  rw [parseValue_strObj [("cmd", "exec"), ("command", cmd)]
    ((membersChars [("cmd", "exec"), ("command", cmd)]).length + 3) ['\n']
    (by simp) (by simp at hmc ⊢; omega)]
  simp [skipWs, isJsonWs]

/-! ## The claims -/

/-- C1 (amended).  For every call to `execute` after `start`, when the
child replies with one response line that parses as a JSON object: if
its `status` field equals `"ok"`, `execute` returns the `result` object
unchanged; otherwise it fails with the remote-execution error whose
message is `"VM Error: "` followed by the response's `error` field (so
for the line `\x7b"status":"error","error":"boom"\x7d` the carried
message is `"VM Error: boom"`, not bare `"boom"`). -/
theorem exec_response_semantics (line : String)
    (members : List (String × Json))
    (hparse : loads line = some (Json.obj members)) :
    (∀ r, jget members "status" = some (Json.str "ok") →
        jget members "result" = some r → execResponse line = .ok r) ∧
    (∀ e, jget members "status" ≠ some (Json.str "ok") →
        jget members "error" = some (Json.str e) →
        execResponse line = .error (.remoteError ("VM Error: " ++ e))) := by
  have hne : line ≠ "" := by
    intro h
    rw [h, loads_empty] at hparse
    exact Option.noConfusion hparse
  constructor
  · intro r hstat hres
    rw [execResponse, if_neg hne, hparse]
    simp only []
    rw [hstat]
    simp only []
    rw [if_pos (by decide), hres]
  · intro e hstat herr
    rw [execResponse, if_neg hne, hparse]
    simp only []
    cases hs : jget members "status" with
    | none =>
      rw [herr]
      simp [pyStrOpt, pyStr]
    | some v =>
      cases v with
      | str s =>
        simp only []
        rw [if_neg (fun hsok => hstat (by rw [hs, hsok])), herr]
        simp [pyStrOpt, pyStr]
      | null => rw [herr]; simp [pyStrOpt, pyStr]
      | bool b => rw [herr]; simp [pyStrOpt, pyStr]
      | int n => rw [herr]; simp [pyStrOpt, pyStr]
      | arr l => rw [herr]; simp [pyStrOpt, pyStr]
      | obj o => rw [herr]; simp [pyStrOpt, pyStr]

/-- C1, witness: the amended claim applied to the concrete line
`\x7b"status":"error","error":"boom"\x7d`. -/
theorem exec_response_semantics_witness :
    execResponse "\x7b\"status\":\"error\",\"error\":\"boom\"\x7d" =
      .error (.remoteError ("VM Error: " ++ "boom")) :=
  (exec_response_semantics "\x7b\"status\":\"error\",\"error\":\"boom\"\x7d"
    [("status", Json.str "error"), ("error", Json.str "boom")] rfl).2 "boom"
    (by
      intro h
      have h2 : Json.str "error" = Json.str "ok" := by
        have h3 : jget [("status", Json.str "error"),
            ("error", Json.str "boom")] "status" = some (Json.str "error") :=
          rfl
        rw [h3] at h
        exact Option.some.inj h
      exact absurd (Json.str.inj h2) (by decide))
    rfl

/-- C1, counterexample to the claim as stated: for the response line
`\x7b"status":"error","error":"boom"\x7d` the carried message is
`"VM Error: boom"`, not the bare error field `"boom"`. -/
theorem exec_error_message_counterexample :
    execResponse "\x7b\"status\":\"error\",\"error\":\"boom\"\x7d" =
      .error (.remoteError "VM Error: boom") ∧
    execResponse "\x7b\"status\":\"error\",\"error\":\"boom\"\x7d" ≠
      .error (.remoteError "boom") := by
  constructor
  · rfl
  · intro h
    rw [show execResponse "\x7b\"status\":\"error\",\"error\":\"boom\"\x7d" =
        .error (.remoteError "VM Error: boom") from rfl] at h
    have h2 := ExecError.remoteError.inj (Except.error.inj h)
    exact absurd h2 (by decide)

/-- C2.  Tool-result content: on a non-zero exit code it is
`"Error (Exit <code>): "` followed by stderr when stderr is non-empty
and by stdout when stderr is empty; on exit code zero it is stdout
verbatim; in particular `exitCode=2, stderr="err", stdout="out"` yields
`"Error (Exit 2): err"` and the same with empty stderr yields
`"Error (Exit 2): out"`. -/
theorem tool_result_content_formatting :
    (∀ res : ExecResult, res.exitCode ≠ 0 → res.stderr ≠ "" →
        toolContent res =
          "Error (Exit " ++ toString res.exitCode ++ "): " ++ res.stderr) ∧
    (∀ res : ExecResult, res.exitCode ≠ 0 → res.stderr = "" →
        toolContent res =
          "Error (Exit " ++ toString res.exitCode ++ "): " ++ res.stdout) ∧
    (∀ res : ExecResult, res.exitCode = 0 → toolContent res = res.stdout) ∧
    toolContent ⟨"out", "err", 2⟩ = "Error (Exit 2): err" ∧
    toolContent ⟨"out", "", 2⟩ = "Error (Exit 2): out" := by
  refine ⟨?_, ?_, ?_, rfl, rfl⟩
  · intro res h hs
    rw [toolContent, if_pos h, if_neg hs]
  · intro res h hs
    rw [toolContent, if_pos h, if_pos hs]
  · intro res h
    rw [toolContent, if_neg (by simp [h])]

/-- C2, witness: the formatting applied to `⟨"out", "err", 2⟩`. -/
theorem tool_result_content_formatting_witness :
    toolContent ⟨"out", "err", 2⟩ =
      "Error (Exit " ++ toString (2 : Int) ++ "): " ++ "err" :=
  tool_result_content_formatting.1 ⟨"out", "err", 2⟩ (by decide) (by decide)

/-- C6.  `execute` fails with the not-started error whenever the client
is not in the ready state: every call before `start`, and every call
after `stop` has completed, regardless of the child's reply. -/
theorem exec_not_started_gating :
    (∀ resp : String, clientExec clientInit resp = .error .notStarted) ∧
    (∀ (c : AgentVMClient) (graceful : Bool) (resp : String),
        clientExec (clientStop c graceful).1 resp = .error .notStarted) := by
  constructor
  · intro resp; rfl
  · intro c graceful resp
    by_cases h : c.processSet
    · have h1 : (clientStop c graceful).1 = ⟨false⟩ := by
        rw [clientStop, if_pos h]
      rw [h1]
      rfl
    · have h1 : (clientStop c graceful).1 = c := by
        rw [clientStop, if_neg h]
      rw [h1, clientExec, if_neg h]


/-- C7.  `stop` is idempotent: with no process running it is a no-op
performing no actions, and a second call in succession leaves the state
unchanged and sends no second termination request. -/
theorem stop_idempotent_no_duplicate :
    (∀ graceful : Bool, clientStop ⟨false⟩ graceful = (⟨false⟩, [])) ∧
    (∀ (c : AgentVMClient) (g1 g2 : Bool),
        clientStop (clientStop c g1).1 g2 = ((clientStop c g1).1, [])) := by
  constructor
  · intro graceful; rfl
  · intro c g1 g2
    by_cases h : c.processSet
    · have h1 : (clientStop c g1).1 = ⟨false⟩ := by
        rw [clientStop, if_pos h]
      rw [h1]
      rfl
    · have h1 : (clientStop c g1).1 = c := by
        rw [clientStop, if_neg h]
      rw [h1, clientStop, if_neg h]

/-- C9.  A tool invocation whose function name is not
`execute_shell_command` is skipped entirely: processing it is the same
as not having it — no bridge exchange, no tool-result message, no
change to the conversation or the commands sent. -/
theorem non_matching_tool_call_skipped
    (bridge : String → Except ExecError ExecResult) (tc : ToolCall)
    (rest : List ToolCall) (msgs : List Message) (cmds : List String)
    (h : tc.name ≠ "execute_shell_command") :
    processToolCalls bridge (tc :: rest) msgs cmds =
      processToolCalls bridge rest msgs cmds := by
  rw [processToolCalls, if_neg h]

/-- C9, witness: a call named `other_tool` is skipped. -/
theorem non_matching_tool_call_skipped_witness :
    processToolCalls (fun _ => .ok ⟨"", "", 0⟩)
        [⟨"call_1", "other_tool", "\x7b\x7d"⟩] [] [] =
      processToolCalls (fun _ => .ok ⟨"", "", 0⟩) [] [] [] :=
  non_matching_tool_call_skipped (fun _ => .ok ⟨"", "", 0⟩)
    ⟨"call_1", "other_tool", "\x7b\x7d"⟩ [] [] [] (by decide)

/-- C10.  A non-empty response line that is not valid JSON makes
`execute` fail with the JSON decode error, which is none of the defined
error kinds (not-started, connection-closed, remote-execution). -/
theorem malformed_line_json_decode_failure :
    ("oops" : String) ≠ "" ∧
    execResponse "oops" = .error .jsonDecodeError ∧
    ExecError.jsonDecodeError ≠ .notStarted ∧
    ExecError.jsonDecodeError ≠ .connectionClosed ∧
    ∀ msg, ExecError.jsonDecodeError ≠ .remoteError msg := by
  refine ⟨by decide, rfl, by decide, by decide, ?_⟩
  intro msg h
  exact ExecError.noConfusion h

/-- C5.  With no credential configured the run never contacts the
completion endpoint — whatever the startup outcome — and, when the VM
starts, performs exactly one bridge exchange with the fixed listing
command `ls -F`. -/
theorem degraded_mode_single_exchange :
    (∀ (start : StartOutcome) (replies : Nat → AssistantMsg)
        (bridge : String → Except ExecError ExecResult) (graceful : Bool),
        (run_agent none start replies bridge graceful).endpointCalls = 0) ∧
    (∀ (replies : Nat → AssistantMsg)
        (bridge : String → Except ExecError ExecResult) (graceful : Bool),
        (run_agent none .ok replies bridge graceful).execCommands =
          ["ls -F"]) := by
  constructor
  · intro start replies bridge graceful
    cases start with
    | popenFail => rfl
    | readyFail => rfl
    | ok =>
      rw [run_agent]
      cases h : bridge "ls -F" <;> simp
  · intro replies bridge graceful
    rw [run_agent]
    cases h : bridge "ls -F" <;> simp

/-- C8.  `stop` runs exactly once on every exit path of `run_agent`,
and every error — startup failure, a loop error, or a failing simulated
exchange — is caught at the top level and recorded rather than
propagated. -/
theorem top_level_catch_and_stop
    (apiKey : Option String) (start : StartOutcome)
    (replies : Nat → AssistantMsg)
    (bridge : String → Except ExecError ExecResult) (graceful : Bool) :
    (run_agent apiKey start replies bridge graceful).stopRuns = 1 ∧
    (run_agent apiKey .popenFail replies bridge graceful).caughtError =
      some .startupError ∧
    (run_agent apiKey .readyFail replies bridge graceful).caughtError =
      some .startupError ∧
    (∀ k, (run_agent (some k) .ok replies bridge graceful).caughtError =
        (runAgentLoop replies bridge).err.map RunError.agent) ∧
    (run_agent none .ok replies bridge graceful).caughtError =
      (match bridge "ls -F" with
       | .ok _ => none
       | .error e => some (RunError.agent (.bridgeError e))) := by
  refine ⟨?_, rfl, rfl, ?_, ?_⟩
  · cases start with
    | popenFail => rfl
    | readyFail => rfl
    | ok =>
      cases apiKey with
      | none => cases h : bridge "ls -F" <;> simp [run_agent, h]
      | some k => simp [run_agent]
  · intro k; rfl
  · cases h : bridge "ls -F" <;> simp [run_agent, h]

/-- C4.  For every command string — including strings with newlines,
quotes, or other characters needing JSON escaping — the request line
written by the client parses back to a JSON object with `cmd = "exec"`
and `command` equal to the original string, and the line is one
newline-free prefix terminated by exactly one newline. -/
theorem request_line_framing (cmd : String) :
    loads (execRequestLine cmd) =
      some (Json.obj [("cmd", Json.str "exec"), ("command", Json.str cmd)]) ∧
    ∃ pre : List Char,
      (execRequestLine cmd).data = pre ++ ['\n'] ∧ '\n' ∉ pre := by
  refine ⟨loads_execRequestLine cmd,
    ⟨'{' :: (membersChars [("cmd", "exec"), ("command", cmd)] ++ ['}']),
      ?_, ?_⟩⟩
  · rw [execRequestLine_data]
    simp
  · intro h
    rcases List.mem_cons.mp h with h | h
    · exact absurd h (by decide)
    · rcases List.mem_append.mp h with h | h
      · exact membersChars_no_newline _ h
      · have h2 : '\n' = '}' := by simpa using h
        exact absurd h2 (by decide)

/-- The loop makes at most `calls + budget` endpoint calls in total. -/
theorem runSteps_endpointCalls_le (replies : Nat → AssistantMsg)
    (bridge : String → Except ExecError ExecResult) :
    ∀ (budget calls : Nat) (msgs : List Message) (cmds : List String),
      (runSteps replies bridge budget calls msgs cmds).endpointCalls ≤
        calls + budget := by
  intro budget
  induction budget with
  | zero =>
    intro calls msgs cmds
    rw [show runSteps replies bridge 0 calls msgs cmds =
      ⟨msgs, calls, cmds, none, none⟩ from rfl]
    show calls ≤ calls + 0
    omega
  | succ n ih =>
    intro calls msgs cmds
    rw [runSteps]
    by_cases h : (replies calls).tool_calls = []
    · rw [if_pos h]
      show calls + 1 ≤ calls + (n + 1)
      omega
    · rw [if_neg h]
      rcases processToolCalls bridge (replies calls).tool_calls
          (msgs ++ [Message.assistant (replies calls)]) cmds with
        ⟨msgs2, cmds2, err⟩
      cases err with
      | some e =>
        show calls + 1 ≤ calls + (n + 1)
        omega
      | none =>
        show (runSteps replies bridge n (calls + 1) msgs2 cmds2).endpointCalls ≤
          calls + (n + 1)
        have := ih (calls + 1) msgs2 cmds2
        omega

/-- C3.  The agent loop performs at most `MAX_STEPS` endpoint
round-trips for every scripted endpoint and bridge; and on the script
that returns a tool invocation on steps 1 and 2 and plain text on step
3, it performs exactly 3 round-trips and 2 tool exchanges, records the
step-3 text as the final answer, and terminates without error. -/
theorem tool_loop_bounded_and_scripted :
    (∀ (replies : Nat → AssistantMsg)
        (bridge : String → Except ExecError ExecResult),
        (runAgentLoop replies bridge).endpointCalls ≤ MAX_STEPS) ∧
    (∀ (cmd1 cmd2 answer id1 id2 : String) (bridge : String → ExecResult),
        (runAgentLoop (scriptedReplies cmd1 cmd2 answer id1 id2)
            (fun c => .ok (bridge c))).endpointCalls = 3 ∧
        (runAgentLoop (scriptedReplies cmd1 cmd2 answer id1 id2)
            (fun c => .ok (bridge c))).execCommands = [cmd1, cmd2] ∧
        (runAgentLoop (scriptedReplies cmd1 cmd2 answer id1 id2)
            (fun c => .ok (bridge c))).finalContent = some answer ∧
        (runAgentLoop (scriptedReplies cmd1 cmd2 answer id1 id2)
            (fun c => .ok (bridge c))).err = none) := by
  constructor
  · intro replies bridge
    have h := runSteps_endpointCalls_le replies bridge MAX_STEPS 0
      [Message.user initialUserMsg] []
    simpa [runAgentLoop] using h
  · intro cmd1 cmd2 answer id1 id2 bridge
    have hload1 : loads (dumps (Json.obj [("command", Json.str cmd1)])) =
        some (Json.obj [("command", Json.str cmd1)]) := by
      simpa using loads_dumps_strObj [("command", cmd1)] (by simp)
    have hload2 : loads (dumps (Json.obj [("command", Json.str cmd2)])) =
        some (Json.obj [("command", Json.str cmd2)]) := by
      simpa using loads_dumps_strObj [("command", cmd2)] (by simp)
    have hp1 : ∀ (M : List Message) (C : List String),
        processToolCalls (fun c => .ok (bridge c))
          [⟨id1, "execute_shell_command",
            dumps (Json.obj [("command", Json.str cmd1)])⟩] M C =
        (M ++ [Message.tool id1 "execute_shell_command"
            (toolContent (bridge cmd1))], C ++ [cmd1], none) := by
      intro M C
      rw [processToolCalls, if_pos rfl, hload1]
      simp only []
      rw [show jget [("command", Json.str cmd1)] "command" =
          some (Json.str cmd1) from rfl]
      simp only []
      rw [processToolCalls]
    have hp2 : ∀ (M : List Message) (C : List String),
        processToolCalls (fun c => .ok (bridge c))
          [⟨id2, "execute_shell_command",
            dumps (Json.obj [("command", Json.str cmd2)])⟩] M C =
        (M ++ [Message.tool id2 "execute_shell_command"
            (toolContent (bridge cmd2))], C ++ [cmd2], none) := by
      intro M C
      rw [processToolCalls, if_pos rfl, hload2]
      simp only []
      rw [show jget [("command", Json.str cmd2)] "command" =
          some (Json.str cmd2) from rfl]
      simp only []
      rw [processToolCalls]
    have hr0 : scriptedReplies cmd1 cmd2 answer id1 id2 0 =
        ⟨"", [⟨id1, "execute_shell_command",
          dumps (Json.obj [("command", Json.str cmd1)])⟩]⟩ := by
      simp [scriptedReplies]
    have hr1 : scriptedReplies cmd1 cmd2 answer id1 id2 1 =
        ⟨"", [⟨id2, "execute_shell_command",
          dumps (Json.obj [("command", Json.str cmd2)])⟩]⟩ := by
      simp [scriptedReplies]
    have hr2 : scriptedReplies cmd1 cmd2 answer id1 id2 2 =
        ⟨answer, []⟩ := by
      simp [scriptedReplies]
    have hcomp : runAgentLoop (scriptedReplies cmd1 cmd2 answer id1 id2)
        (fun c => .ok (bridge c)) =
        ⟨[Message.user initialUserMsg,
          Message.assistant ⟨"", [⟨id1, "execute_shell_command",
            dumps (Json.obj [("command", Json.str cmd1)])⟩]⟩,
          Message.tool id1 "execute_shell_command"
            (toolContent (bridge cmd1)),
          Message.assistant ⟨"", [⟨id2, "execute_shell_command",
            dumps (Json.obj [("command", Json.str cmd2)])⟩]⟩,
          Message.tool id2 "execute_shell_command"
            (toolContent (bridge cmd2)),
          Message.assistant ⟨answer, []⟩],
         3, [cmd1, cmd2], some answer, none⟩ := by
      rw [runAgentLoop, show MAX_STEPS = 4 + 1 from rfl, runSteps]
      rw [hr0]
      simp only []
      rw [if_neg (by simp), hp1]
      simp only []
      rw [show (4 : Nat) = 3 + 1 from rfl, runSteps]
      rw [show (0 : Nat) + 1 = 1 from rfl, hr1]
      simp only []
      rw [if_neg (by simp), hp2]
      simp only []
      rw [show (3 : Nat) = 2 + 1 from rfl, runSteps]
      rw [show (1 : Nat) + 1 = 2 from rfl, hr2]
      simp only []
      rw [if_pos trivial]
      simp
    rw [hcomp]
    exact ⟨rfl, rfl, rfl, rfl⟩

end AgentVM
